import Mathlib

/-!
Verification of the content-pipeline dashboard front-end.

This file gives a shallow embedding, in Lean, of the client-side logic of the
dashboard: the review workflow (chat, editor save, approve, reject), the
pipeline-run grouping, the ideas filtering, the dashboard statistics, the
watch-topic form, and the site-selection hook, together with the HTTP plumbing
in apiFetch.  JavaScript strings are Lean String, nullable values are Option,
JS numbers are Int (integers) or Rat (scores and costs), and JS truthiness is
made explicit.  External effects (the HTTP server, localStorage, the markdown
converters, date parsing, JSON serialisation of structured values) are passed
in as explicit values or functions, so every definition is executable.
-/

namespace Pipeline

/-- Truthiness of a nullable JS string: null, undefined and the empty string
are falsy, every other string is truthy. -/
def jsTruthy : Option String → Bool
  | none => false
  | some s => s ≠ ""

/-- Leading whitespace characters removed from a character list. -/
def trimLeftChars : List Char → List Char
  | [] => []
  | c :: cs => if c.isWhitespace then trimLeftChars cs else c :: cs

/-- The JS String.prototype.trim method: whitespace stripped from both ends
(structurally recursive so that it evaluates on concrete inputs). -/
def jsTrim (s : String) : String :=
  String.mk (((trimLeftChars s.data).reverse |> trimLeftChars).reverse)

/-- The JS idiom a or-else b for a nullable string a and a string default b,
written a || b in the source: a when truthy, otherwise b. -/
def jsOrStr (a : Option String) (b : String) : String :=
  match a with
  | none => b
  | some s => if s = "" then b else s

/-- A site, from src/src/lib/types.ts. -/
structure Site where
  id : String
  name : String
  domain : String
  description : String
  pipeline_config : String
  settings : String
  active : Int
  deriving Repr, DecidableEq

/-- A content item, from src/src/lib/types.ts. -/
structure Content where
  id : String
  site_id : String
  topic_id : Option String
  voice_profile_id : Option String
  stage : String
  run_id : Option String
  title : Option String
  slug : Option String
  excerpt : Option String
  summary : Option String
  draft_md : Option String
  final_md : Option String
  meta_description : Option String
  meta_keywords : Option String
  og_image_prompt : Option String
  category : Option String
  tags : Option String
  word_count : Option Int
  reading_time : Option Int
  quality_score : Option Rat
  platforms : Option String
  requires_review : Int
  scheduled_publish_at : Option String
  published_at : Option String
  published_urls : Option String
  created_at : Option String
  updated_at : Option String
  deriving Repr, DecidableEq

/-- A pipeline trace, from src/src/lib/types.ts. -/
structure Trace where
  id : String
  run_id : String
  content_id : Option String
  stage : String
  provider : String
  model : String
  system_prompt_hash : Option String
  input_tokens : Option Int
  output_tokens : Option Int
  total_tokens : Option Int
  latency_ms : Option Int
  status : String
  error_message : Option String
  estimated_cost_usd : Option Rat
  created_at : Option String
  deriving Repr, DecidableEq

/-- A review chat message, from src/src/lib/types.ts.  The role is the string
value of the union type, either human or agent. -/
structure ReviewMessage where
  id : String
  content_id : String
  role : String
  message : String
  actions_taken : String
  stage_triggered : Option String
  revision_id : Option String
  created_at : Option String
  deriving Repr, DecidableEq

/-- A revision, from src/src/lib/types.ts. -/
structure Revision where
  id : String
  content_id : String
  revision_number : Int
  changed_by : String
  change_type : String
  previous_md : Option String
  updated_md : Option String
  diff_summary : Option String
  feedback : Option String
  agent_notes : Option String
  concerns : Option String
  fields_changed : String
  created_at : Option String
  deriving Repr, DecidableEq

/-- One entry of the actions_taken array of a review-chat response,
from the return type of sendReviewChat in src/src/lib/api.ts. -/
structure ChatAction where
  action : String
  details : String
  deriving Repr, DecidableEq

/-- The JSON body returned by the review-chat endpoint, from the return type
of sendReviewChat in src/src/lib/api.ts. -/
structure ChatResponse where
  message : String
  actions_taken : List ChatAction
  revision : Option Revision
  updated_content : Option Content
  concerns : List String
  deriving Repr, DecidableEq

/-- The fixed backend base URL, from src/src/lib/api.ts. -/
def BASE_URL : String := "https://content-pipeline.roccobot.workers.dev"

/-- An HTTP request as issued by apiFetch: absolute URL, method and an
abstract body (the JSON payloads are modelled structurally elsewhere). -/
structure HttpRequest where
  url : String
  method : String
  deriving Repr, DecidableEq

/-- An HTTP response as consumed by apiFetch: the status code, the raw body
text (read by res.text on failure) and the parsed JSON payload (produced by
res.json on success), abstract in the payload type. -/
structure HttpResponse (J : Type) where
  status : Nat
  bodyText : String
  json : J

/-- The res.ok flag of the fetch API: status in the range 200 to 299. -/
def respOk (status : Nat) : Bool := 200 ≤ status && status ≤ 299

/-- Embedding of apiFetch from src/src/lib/api.ts.  The stored token and the
server are passed in explicitly; the result records the request issued, if
any, and either the parsed JSON payload or the thrown error message.  The
guard if (!token) is JS truthiness: a missing and an empty stored token both
throw without issuing a request. -/
def apiFetch {J : Type} (token : Option String) (path : String) (method : String)
    (server : HttpRequest → HttpResponse J) : Option HttpRequest × Except String J :=
  if jsTruthy token = false then (none, Except.error "No auth token")
  else
    let req : HttpRequest := ⟨BASE_URL ++ path, method⟩
    let res := server req
    (some req,
      if respOk res.status then Except.ok res.json
      else Except.error ("API " ++ toString res.status ++ ": " ++ res.bodyText))

/-- The outcome of handleSendChat in src/src/pages/ReviewPage.tsx: the
review-chat request issued, if any (content id and message body), the message
list right after the optimistic update, and the final message list. -/
structure ChatStep where
  request : Option (String × String)
  afterOptimistic : List ReviewMessage
  final : List ReviewMessage
  deriving Repr, DecidableEq

/-- Embedding of handleSendChat from src/src/pages/ReviewPage.tsx.  The id
route parameter, the current input and message list are state; nowMs and
nowIso stand for Date.now() and new Date().toISOString(); stringify stands
for JSON.stringify on the actions array; outcome is the result of the awaited
sendReviewChat call (ok, or the thrown error message). -/
def handleSendChat (messages : List ReviewMessage) (chatInput : String)
    (id : Option String) (nowMs : Nat) (nowIso : String)
    (stringify : List ChatAction → String)
    (outcome : Except String ChatResponse) : ChatStep :=
  if jsTrim chatInput = "" ∨ id = none then ⟨none, messages, messages⟩
  else
    match id with
    | none => ⟨none, messages, messages⟩
    | some cid =>
      let msg := jsTrim chatInput
      let optimisticMsg : ReviewMessage :=
        ⟨"temp-" ++ toString nowMs, cid, "human", msg, "[]", none, none, some nowIso⟩
      let afterOpt := messages ++ [optimisticMsg]
      match outcome with
      | Except.ok response =>
        let agentMsg : ReviewMessage :=
          ⟨"agent-" ++ toString nowMs, cid, "agent", response.message,
            stringify response.actions_taken, none,
            (response.revision.map (fun r => r.id)), some nowIso⟩
        ⟨some (cid, msg), afterOpt, afterOpt ++ [agentMsg]⟩
      | Except.error e =>
        let errMsg : ReviewMessage :=
          ⟨"err-" ++ toString nowMs, cid, "agent", "Error: " ++ e, "[]", none, none,
            some nowIso⟩
        ⟨some (cid, msg), afterOpt, afterOpt ++ [errMsg]⟩

/-- The markdown selected for the editor from a content item, the expression
content.final_md || content.draft_md || empty in src/src/pages/ReviewPage.tsx
lines 100 and 189. -/
def contentMd (c : Content) : String :=
  jsOrStr c.final_md (jsOrStr c.draft_md "")

/-- Embedding of the initial editor load, src/src/pages/ReviewPage.tsx lines
100 to 104: the editor state is none when not ready, otherwise its current
HTML; markedParse stands for marked.parse; the editor is set only when it
exists and the markdown is non-empty. -/
def initialEditorLoad (markedParse : String → String)
    (editor : Option String) (md : String) : Option String :=
  match editor with
  | none => none
  | some cur => if md = "" then some cur else some (markedParse md)

/-- Embedding of loadContentIntoEditor from src/src/pages/ReviewPage.tsx
lines 116 to 120, used after a chat update: returns early when the editor is
missing or the markdown is empty, otherwise sets the parsed HTML. -/
def loadContentIntoEditor (markedParse : String → String)
    (editor : Option String) (md : String) : Option String :=
  match editor with
  | none => none
  | some cur => if md = "" then some cur else some (markedParse md)

/-- The editor content the claim predicts after a load: marked.parse applied
to final_md when non-empty, otherwise to draft_md when non-empty, otherwise
the empty string.  Stated from the claim, to be compared with the code. -/
def claimedLoadedEditor (markedParse : String → String) (c : Content) : String :=
  match c.final_md with
  | some s =>
    if s ≠ "" then markedParse s
    else match c.draft_md with
         | some d => if d ≠ "" then markedParse d else ""
         | none => ""
  | none =>
    match c.draft_md with
    | some d => if d ≠ "" then markedParse d else ""
    | none => ""

/-- Embedding of handleSave from src/src/pages/ReviewPage.tsx lines 123 to
149: returns the createRevision submission (content id and markdown), if any;
turndownFn stands for the turndown conversion of the editor HTML. -/
def handleSave (turndownFn : String → String)
    (editor : Option String) (id : Option String) : Option (String × String) :=
  match editor, id with
  | some html, some cid => some (cid, turndownFn html)
  | _, _ => none

/-- The review-approve request built by approveContent in src/src/lib/api.ts
lines 153 to 158: the path and the target_stage field of the JSON body,
which is targetStage || scheduled. -/
structure ApproveRequest where
  path : String
  target_stage : String
  deriving Repr, DecidableEq

/-- Embedding of approveContent from src/src/lib/api.ts lines 153 to 158. -/
def approveContent (contentId : String) (targetStage : Option String) : ApproveRequest :=
  ⟨"/api/content/" ++ contentId ++ "/review/approve", jsOrStr targetStage "scheduled"⟩

/-- Embedding of handleApprove from src/src/pages/ReviewPage.tsx lines 218 to
229: the request issued, if any, and the navigation target, if any (on
success the user is sent to /content, on failure an alert is shown and no
navigation happens). -/
def handleApprove (id : Option String) (targetStage : Option String)
    (outcome : Except String Unit) : Option ApproveRequest × Option String :=
  match id with
  | none => (none, none)
  | some cid =>
    let req := approveContent cid targetStage
    match outcome with
    | Except.ok _ => (some req, some "/content")
    | Except.error _ => (some req, none)

/-- The Approve button of the review page, line 297: handleApprove with the
literal scheduled stage. -/
def approveClick (id : Option String) (outcome : Except String Unit) :
    Option ApproveRequest × Option String :=
  handleApprove id (some "scheduled") outcome

/-- The Approve and Publish button of the review page, line 304:
handleApprove with the literal published stage. -/
def approvePublishClick (id : Option String) (outcome : Except String Unit) :
    Option ApproveRequest × Option String :=
  handleApprove id (some "published") outcome

/-- The rejectStage state of the review page, a union of the two string
literals research and draft (src/src/pages/ReviewPage.tsx line 55). -/
inductive RejectStage where
  | research
  | draft
  deriving Repr, DecidableEq

/-- The string value of a reject stage. -/
def RejectStage.toStr : RejectStage → String
  | RejectStage.research => "research"
  | RejectStage.draft => "draft"

/-- The initial value of the rejectStage state, line 55: draft. -/
def initialRejectStage : RejectStage := RejectStage.draft

/-- The review-reject request built by rejectContent in src/src/lib/api.ts
lines 160 to 165: the path and the target_stage and feedback fields of the
JSON body. -/
structure RejectRequest where
  path : String
  target_stage : String
  feedback : String
  deriving Repr, DecidableEq

/-- Embedding of rejectContent from src/src/lib/api.ts lines 160 to 165. -/
def rejectContent (contentId targetStage feedback : String) : RejectRequest :=
  ⟨"/api/content/" ++ contentId ++ "/review/reject", targetStage, feedback⟩

/-- Embedding of handleReject from src/src/pages/ReviewPage.tsx lines 232 to
243: no request unless the id is present and the feedback is non-empty after
trimming; the transmitted feedback is the trimmed text. -/
def handleReject (id : Option String) (stage : RejectStage)
    (feedback : String) : Option RejectRequest :=
  match id with
  | none => none
  | some cid =>
    if jsTrim feedback = "" then none
    else some (rejectContent cid stage.toStr (jsTrim feedback))

/-- The disabled attribute of the reject modal confirm button,
src/src/pages/ReviewPage.tsx line 411: rejecting || !rejectFeedback.trim(). -/
def rejectConfirmDisabled (rejecting : Bool) (feedback : String) : Bool :=
  rejecting || jsTrim feedback == ""

/-- The filters argument of fetchIdeas, from src/src/lib/api.ts line 220:
all fields optional; min_score is a string in the source, limit a number. -/
structure IdeaFilters where
  status : Option String
  watch_topic_id : Option String
  min_score : Option String
  limit : Option Int
  deriving Repr, DecidableEq

/-- The URLSearchParams built by fetchIdeas, src/src/lib/api.ts lines 221 to
225, as an ordered list of name and value pairs: each parameter is set only
when the corresponding filter is JS-truthy (non-empty string, non-zero
number). -/
def fetchIdeasParams (filters : Option IdeaFilters) : List (String × String) :=
  match filters with
  | none => []
  | some f =>
    (if jsTruthy f.status then [("status", f.status.getD "")] else []) ++
    (if jsTruthy f.watch_topic_id then [("watch_topic_id", f.watch_topic_id.getD "")] else []) ++
    (if jsTruthy f.min_score then [("min_score", f.min_score.getD "")] else []) ++
    (match f.limit with
     | some n => if n ≠ 0 then [("limit", toString n)] else []
     | none => [])

/-- Serialisation of the parameter list, as params.toString produces it
(ampersand-separated name=value pairs; the values reaching fetchIdeas are
plain identifiers and numbers, so percent-encoding is the identity here). -/
def serializeParams (ps : List (String × String)) : String :=
  String.intercalate "&" (ps.map (fun p => p.1 ++ "=" ++ p.2))

/-- The request URL of fetchIdeas, src/src/lib/api.ts line 227: the query
string, with its question mark, is appended only when non-empty. -/
def fetchIdeasUrl (siteId : String) (filters : Option IdeaFilters) : String :=
  let qs := serializeParams (fetchIdeasParams filters)
  "/api/sites/" ++ siteId ++ "/ideas" ++ (if qs = "" then "" else "?" ++ qs)

/-- The parameter list the claim predicts: every set filter appears with its
given value, only unset or empty filters are omitted.  Stated from the
claim, to be compared with the code. -/
def claimedIdeasParams (f : IdeaFilters) : List (String × String) :=
  (match f.status with | some s => if s = "" then [] else [("status", s)] | none => []) ++
  (match f.watch_topic_id with | some s => if s = "" then [] else [("watch_topic_id", s)] | none => []) ++
  (match f.min_score with | some s => if s = "" then [] else [("min_score", s)] | none => []) ++
  (match f.limit with | some n => [("limit", toString n)] | none => [])

/-- The filters passed by the Ideas tab, src/src/pages/ReviewPage.tsx lines
1215 to 1218: statusFilter || undefined and wtFilter || undefined, where the
All-statuses and All-watch-topics choices are the empty string. -/
def ideasTabFilters (statusFilter wtFilter : String) : Option IdeaFilters :=
  some
    { status := if statusFilter = "" then none else some statusFilter
      watch_topic_id := if wtFilter = "" then none else some wtFilter
      min_score := none
      limit := none }

/-- A pipeline-run group built by RunsPage (the RunGroup interface of the
runs page). -/
structure RunGroup where
  runId : String
  contentId : String
  title : String
  traces : List Trace
  totalTokens : Int
  totalLatency : Int
  totalCost : Rat
  stages : List String
  status : String
  createdAt : String
  deriving Repr, DecidableEq

/-- The sort key of a trace in the runs page comparator,
new Date(t.created_at || empty).getTime(): getTime stands for date parsing,
returning none for NaN; a missing or empty created_at always parses to NaN. -/
def traceTime (getTime : String → Option Int) (t : Trace) : Option Int :=
  match t.created_at with
  | none => none
  | some s => if s = "" then none else getTime s

/-- The comparator of the runs page as a boolean order suitable for a stable
sort: the JS comparator returns the difference of the two times, and a NaN
comparator value is treated as zero (a tie), so two traces compare
less-or-equal whenever the difference is not positive or either time is NaN. -/
def traceLe (getTime : String → Option Int) (a b : Trace) : Bool :=
  match traceTime getTime a, traceTime getTime b with
  | some x, some y => x ≤ y
  | _, _ => true

/-- Insertion of an element into a list already ordered by the boolean
comparator, keeping it behind earlier equal elements. -/
def jsInsert {α : Type} (le : α → α → Bool) (a : α) : List α → List α
  | [] => [a]
  | b :: l => if le a b then a :: b :: l else b :: jsInsert le a l

/-- The stable sort performed by Array.prototype.sort, modelled as a
structurally recursive stable insertion sort over the boolean comparator
(for a consistent comparator every stable sort agrees). -/
def jsSort {α : Type} (le : α → α → Bool) : List α → List α
  | [] => []
  | a :: l => jsInsert le a (jsSort le l)

/-- A left fold summing f over a list starting from 0, the shape of the
reduce calls of the runs page. -/
def sumBy {α M : Type} [Add M] [OfNat M 0] (f : α → M) (l : List α) : M :=
  l.foldl (fun s t => s + f t) 0

/-- One group of the runs page, from the push in src/src/lib/api.ts lines
312 to 323 (the RunsPage component): traces sorted by the created_at
comparator (Array.prototype.sort is stable), totals summed with null
treated as 0, status success when every trace succeeded, else error when
some trace errored, else running. -/
def mkRunGroup (getTime : String → Option Int) (content : Content)
    (traces : List Trace) : RunGroup :=
  let sorted := jsSort (traceLe getTime) traces
  { runId := content.run_id.getD ""
    contentId := content.id
    title := jsOrStr content.title "Untitled"
    traces := sorted
    totalTokens := sumBy (fun t => t.total_tokens.getD 0) traces
    totalLatency := sumBy (fun t => t.latency_ms.getD 0) traces
    totalCost := sumBy (fun t => t.estimated_cost_usd.getD 0) traces
    stages := sorted.map (fun t => t.stage)
    status :=
      if sorted.all (fun t => t.status == "success") then "success"
      else if sorted.any (fun t => t.status == "error") then "error"
      else "running"
    createdAt := jsOrStr (sorted.head?.bind (fun t => t.created_at))
        (jsOrStr content.created_at "") }

/-- Insertion into the JS Map built by the runs page: setting an existing key
overwrites its value in place, a new key is appended, so iteration order is
first-insertion order with last-written values. -/
def jsMapInsert (m : List (String × Content)) (k : String) (v : Content) :
    List (String × Content) :=
  if m.any (fun p => p.1 == k) then
    m.map (fun p => if p.1 == k then (k, v) else p)
  else m ++ [(k, v)]

/-- The Map of new Map(withRuns.map(c to [c.run_id, c])) from the runs page,
as its ordered entry list. -/
def jsMapOfList (l : List Content) : List (String × Content) :=
  l.foldl (fun m c => jsMapInsert m (c.run_id.getD "") c) []

/-- Embedding of the run-group construction of RunsPage (src/src/lib/api.ts
lines 300 to 326): contents without a truthy run_id are dropped, one
representative per distinct run_id is kept (at most the first 10), traces
are fetched per run and a failing fetch silently skips that group. -/
def buildRunGroups (getTime : String → Option Int)
    (fetchTraces : String → Except String (List Trace))
    (contentList : List Content) : List RunGroup :=
  let withRuns := contentList.filter (fun c => jsTruthy c.run_id)
  let uniqueRuns := ((jsMapOfList withRuns).map (fun p => p.2)).take 10
  uniqueRuns.filterMap (fun content =>
    match fetchTraces (content.run_id.getD "") with
    | Except.error _ => none
    | Except.ok traces => some (mkRunGroup getTime content traces))

/-- The pipeline stage list STAGES from src/src/lib/utils.ts line 1. -/
def STAGES : List String :=
  ["research", "draft", "verify", "format", "edit", "review", "scheduled", "published"]

/-- The per-stage counts of the dashboard, src/src/pages/DashboardPage.tsx
lines 31 to 34, as an association list over STAGES. -/
def stageCounts (content : List Content) : List (String × Nat) :=
  STAGES.map (fun s => (s, (content.filter (fun c => c.stage == s)).length))

/-- The Total Content stat of the dashboard: content.length. -/
def totalContent (content : List Content) : Nat := content.length

/-- The Published stat of the dashboard: items whose stage is published. -/
def publishedCount (content : List Content) : Nat :=
  (content.filter (fun c => c.stage == "published")).length

/-- The In Pipeline stat of the dashboard: totalContent - publishedCount. -/
def inPipeline (content : List Content) : Nat :=
  totalContent content - publishedCount content

/-- The items with a non-null quality_score, the filtered array arr of the
dashboard average (src/src/pages/DashboardPage.tsx line 41). -/
def qualityItems (content : List Content) : List Content :=
  content.filter (fun c => c.quality_score ≠ none)

/-- The Avg Quality stat of the dashboard, line 41: a reduce over the items
with a non-null quality_score adding each score divided by the length of the
filtered array, starting from 0. -/
def avgQuality (content : List Content) : Rat :=
  (qualityItems content).foldl
    (fun sum c => sum + (c.quality_score.getD 0) / ((qualityItems content).length : Rat)) 0


/-- The state of the new-watch-topic form that the C9 invariant concerns:
the keywords list and the source_types list
(src/src/pages/ReviewPage.tsx lines 988 to 996). -/
structure WatchTopicFormState where
  keywords : List String
  source_types : List String
  deriving Repr, DecidableEq

/-- The initial form state: no keywords, source_types = [google]. -/
def initialWatchTopicForm : WatchTopicFormState :=
  ⟨[], ["google"]⟩

/-- Embedding of addKeyword, src/src/pages/ReviewPage.tsx lines 1001 to
1007: the trimmed input is appended only when non-empty and not already
present. -/
def addKeyword (form : WatchTopicFormState) (keywordInput : String) :
    WatchTopicFormState :=
  let kw := jsTrim keywordInput
  if kw ≠ "" ∧ kw ∉ form.keywords then
    { form with keywords := form.keywords ++ [kw] }
  else form

/-- Removal of a keyword chip, src/src/pages/ReviewPage.tsx line 1116:
keywords.filter(k different from kw). -/
def removeKeyword (form : WatchTopicFormState) (kw : String) :
    WatchTopicFormState :=
  { form with keywords := form.keywords.filter (fun k => k ≠ kw) }

/-- Embedding of toggleSource, src/src/pages/ReviewPage.tsx lines 1009 to
1017: an absent source is appended; a present source is removed unless it is
the only one left. -/
def toggleSource (form : WatchTopicFormState) (src : String) :
    WatchTopicFormState :=
  if src ∈ form.source_types then
    if form.source_types.length ≤ 1 then form
    else { form with source_types := form.source_types.filter (fun s => s ≠ src) }
  else { form with source_types := form.source_types ++ [src] }

/-- The user events that mutate the two form lists. -/
inductive WatchTopicFormEvent where
  | addKw (input : String)
  | removeKw (kw : String)
  | toggleSrc (src : String)
  deriving Repr, DecidableEq

/-- One step of the form state machine. -/
def stepWatchTopicForm (form : WatchTopicFormState) :
    WatchTopicFormEvent → WatchTopicFormState
  | WatchTopicFormEvent.addKw input => addKeyword form input
  | WatchTopicFormEvent.removeKw kw => removeKeyword form kw
  | WatchTopicFormEvent.toggleSrc src => toggleSource form src

/-- A reachable form state: the initial state driven by a list of events. -/
def runWatchTopicForm (events : List WatchTopicFormEvent) : WatchTopicFormState :=
  events.foldl stepWatchTopicForm initialWatchTopicForm

/-- The invariant C9 claims of the form state. -/
def WatchTopicFormInv (form : WatchTopicFormState) : Prop :=
  form.source_types ≠ [] ∧ form.source_types.Nodup ∧
  form.keywords.Nodup ∧ ∀ kw ∈ form.keywords, kw ≠ "" ∧ jsTrim kw = kw

/-- The createWatchTopic payload built by handleSubmit, src/src/pages/
ReviewPage.tsx lines 1025 to 1033, with the two JSON.stringify-serialised
lists kept structurally. -/
structure WatchTopicRequest where
  name : String
  keywords : List String
  source_types : List String
  deriving Repr, DecidableEq

/-- Embedding of handleSubmit of the new-watch-topic form: nothing is sent
when the trimmed name is empty, otherwise the current keyword and source
lists are submitted. -/
def watchTopicSubmit (form : WatchTopicFormState) (name : String) :
    Option WatchTopicRequest :=
  if jsTrim name = "" then none
  else some ⟨jsTrim name, form.keywords, form.source_types⟩

/-- The browser localStorage keys the site hook uses. -/
structure Store where
  pipeline_token : Option String
  selected_site_id : Option String
  deriving Repr, DecidableEq

/-- The outcome of the useSiteProvider load effect, src/src/hooks/useSites.ts
lines 32 to 52: whether fetchSites was called, the resulting site list,
selected site, loading flag and error. -/
structure SiteLoadResult where
  fetched : Bool
  sites : List Site
  selectedSite : Option Site
  loading : Bool
  error : Option String
  deriving Repr, DecidableEq

/-- Embedding of the useSiteProvider load effect: with no truthy token no
fetch happens and loading ends with an empty list; otherwise the saved
selected_site_id, when truthy, picks the first matching fetched site, with
the first fetched site (or null) as fallback. -/
def siteProviderLoad (store : Store)
    (fetchSites : Except String (List Site)) : SiteLoadResult :=
  if jsTruthy store.pipeline_token = false then ⟨false, [], none, false, none⟩
  else
    match fetchSites with
    | Except.error e => ⟨true, [], none, false, some e⟩
    | Except.ok s =>
      let saved := store.selected_site_id
      let found : Option Site :=
        match saved with
        | none => none
        | some sv => if sv = "" then none else s.find? (fun site => site.id == sv)
      ⟨true, s, (match found with | some m => some m | none => s.head?), false, none⟩

/-- The selected site the claim predicts: the site whose id equals the saved
value when such a site exists in the fetched list, otherwise the first
fetched site, otherwise null.  Stated from the claim, to be compared with
the code. -/
def claimedSelectedSite (saved : Option String) (s : List Site) : Option Site :=
  match saved with
  | some sv =>
    match s.find? (fun site => site.id == sv) with
    | some m => some m
    | none => s.head?
  | none => s.head?

/-- Embedding of selectSite, src/src/hooks/useSites.ts lines 54 to 57: the
chosen site becomes selected and its id is written back to localStorage. -/
def selectSite (store : Store) (site : Site) : Store × Site :=
  ({ store with selected_site_id := some site.id }, site)

/-- A content item with every nullable field null, used as a base for
concrete inputs. -/
def emptyContent : Content :=
  ⟨"", "", none, none, "", none, none, none, none, none, none, none, none, none,
    none, none, none, none, none, none, none, 0, none, none, none, none, none⟩

/-- The three-row content list used as the concrete C8 input. -/
def c8list : List Content :=
  [{ emptyContent with stage := "review", quality_score := some (1/2) },
   { emptyContent with stage := "published", quality_score := some (1/4) },
   { emptyContent with stage := "failed" }]

/-- A content item in review whose final_md and draft_md are both null. -/
def contentWithoutMarkdown : Content :=
  { emptyContent with id := "c9", site_id := "s1", stage := "review" }

/-- The fetchIdeas parameter list under the amended claim: a parameter is
included exactly when its filter is set and non-empty as the code tests it,
where for the numeric limit non-empty means non-zero. -/
def amendedIdeasParams (f : IdeaFilters) : List (String × String) :=
  (match f.status with
   | some s => if s = "" then [] else [("status", s)] | none => []) ++
  (match f.watch_topic_id with
   | some s => if s = "" then [] else [("watch_topic_id", s)] | none => []) ++
  (match f.min_score with
   | some s => if s = "" then [] else [("min_score", s)] | none => []) ++
  (match f.limit with
   | some n => if n = 0 then [] else [("limit", toString n)] | none => [])

/-- The selected site under the amended claim: an empty saved id is treated
as no saved id (matching the JS truthiness test on the saved value). -/
def amendedSelectedSite (saved : Option String) (s : List Site) : Option Site :=
  match saved with
  | some sv =>
    if sv = "" then s.head?
    else
      match s.find? (fun site => site.id == sv) with
      | some m => some m
      | none => s.head?
  | none => s.head?

/-- A concrete site with a normal id. -/
def siteA : Site := ⟨"a1", "Alpha", "a.example", "", "", "", 1⟩

/-- A concrete site whose id is the empty string. -/
def siteB : Site := ⟨"", "Blank", "b.example", "", "", "", 1⟩

/-- A trace with every nullable field null, used as a base for concrete
inputs. -/
def emptyTrace : Trace :=
  ⟨"", "", none, "", "", "", none, none, none, none, none, "", none, none, none⟩

/-- A concrete research trace created at time t1. -/
def wTraceA : Trace :=
  { emptyTrace with
    id := "tA", run_id := "r1", stage := "research", status := "success"
    total_tokens := some 3, latency_ms := some 10, created_at := some "t1" }

/-- A concrete draft trace created at time t2. -/
def wTraceB : Trace :=
  { emptyTrace with
    id := "tB", run_id := "r1", stage := "draft", status := "success"
    total_tokens := some 4, latency_ms := some 20, created_at := some "t2" }

/-- A concrete date parser: t1 before t2, everything else NaN. -/
def wGetTime : String → Option Int :=
  fun s => if s = "t1" then some 1 else if s = "t2" then some 2 else none

/-- A concrete trace fetcher: run r1 returns the two traces newest first,
every other run errors. -/
def wFetch : String → Except String (List Trace) :=
  fun r => if r = "r1" then Except.ok [wTraceB, wTraceA] else Except.error "HTTP 500"

/-- Three concrete content rows: two sharing run r1 and one without a run. -/
def wContents : List Content :=
  [{ emptyContent with id := "c1", run_id := some "r1" },
   { emptyContent with id := "c2" },
   { emptyContent with id := "c3", run_id := some "r1" }]

/-- The single group the runs page builds from the concrete rows: the Map
keeps the last content seen for run r1. -/
def wGroup : RunGroup :=
  mkRunGroup wGetTime { emptyContent with id := "c3", run_id := some "r1" }
    [wTraceB, wTraceA]

/-- The agent text C1 predicts for a given chat outcome: the server reply on
success, the error message with the Error: marker on failure. -/
def agentTextOf (outcome : Except String ChatResponse) : String :=
  match outcome with
  | Except.ok response => response.message
  | Except.error e => "Error: " ++ e

/-- Claim C1: a send of a review chat message with non-empty trimmed input
and a content id first appends exactly one human message carrying the
trimmed text (the optimistic update), then exactly one agent message whose
text is the server reply on success and Error: followed by the error message
on failure; the human message is never removed, so the list grows by exactly
two; with empty trimmed input or no content id nothing is appended and no
request is sent. -/
theorem c1_send_chat_spec (messages : List ReviewMessage) (chatInput : String)
    (id : Option String) (nowMs : Nat) (nowIso : String)
    (stringify : List ChatAction → String) (outcome : Except String ChatResponse) :
    (∀ cid, id = some cid → jsTrim chatInput ≠ "" →
      (handleSendChat messages chatInput id nowMs nowIso stringify outcome).request
          = some (cid, jsTrim chatInput) ∧
      (∃ humanMsg agentMsg,
        (handleSendChat messages chatInput id nowMs nowIso stringify outcome).afterOptimistic
            = messages ++ [humanMsg] ∧
        (handleSendChat messages chatInput id nowMs nowIso stringify outcome).final
            = messages ++ [humanMsg] ++ [agentMsg] ∧
        humanMsg.role = "human" ∧ humanMsg.message = jsTrim chatInput ∧
        agentMsg.role = "agent" ∧ agentMsg.message = agentTextOf outcome) ∧
      (handleSendChat messages chatInput id nowMs nowIso stringify outcome).final.length
          = messages.length + 2) ∧
    ((jsTrim chatInput = "" ∨ id = none) →
      (handleSendChat messages chatInput id nowMs nowIso stringify outcome).final
          = messages ∧
      (handleSendChat messages chatInput id nowMs nowIso stringify outcome).request
          = none) := by
  constructor
  · intro cid hid hne
    subst hid
    cases outcome with
    | ok response =>
      refine ⟨by simp [handleSendChat, hne],
        ⟨⟨"temp-" ++ toString nowMs, cid, "human", jsTrim chatInput, "[]", none, none,
            some nowIso⟩,
         ⟨"agent-" ++ toString nowMs, cid, "agent", response.message,
            stringify response.actions_taken, none,
            response.revision.map (fun r => r.id), some nowIso⟩,
         by simp [handleSendChat, hne], by simp [handleSendChat, hne],
         rfl, rfl, rfl, rfl⟩,
        by simp [handleSendChat, hne]⟩
    | error e =>
      refine ⟨by simp [handleSendChat, hne],
        ⟨⟨"temp-" ++ toString nowMs, cid, "human", jsTrim chatInput, "[]", none, none,
            some nowIso⟩,
         ⟨"err-" ++ toString nowMs, cid, "agent", "Error: " ++ e, "[]", none, none,
            some nowIso⟩,
         by simp [handleSendChat, hne], by simp [handleSendChat, hne],
         rfl, rfl, rfl, rfl⟩,
        by simp [handleSendChat, hne]⟩
  · intro h
    rcases h with h | h
    · simp [handleSendChat, h]
    · simp [handleSendChat, h]

/-- Witness for C1 at a concrete send: input with surrounding blanks, a
failing server call. -/
theorem c1_send_chat_witness :
    jsTrim "  hi there " ≠ "" ∧
    (handleSendChat [] "  hi there " (some "c7") 5 "now"
        (fun _ => "[]") (Except.error "boom")).request = some ("c7", "hi there") ∧
    (handleSendChat [] "  hi there " (some "c7") 5 "now"
        (fun _ => "[]") (Except.error "boom")).final.length = 0 + 2 := by
  have h := c1_send_chat_spec [] "  hi there " (some "c7") 5 "now"
    (fun _ => "[]") (Except.error "boom")
  have h1 := h.1 "c7" rfl (by decide)
  exact ⟨by decide, h1.1, h1.2.2⟩

/-- Claim C3: approveContent posts to the review-approve path of the given
content with target_stage equal to the supplied stage, defaulting to
scheduled when the stage is undefined or empty; the Approve button supplies
scheduled, the Approve and Publish button supplies published, and a
successful approval navigates to the content list. -/
theorem c3_approve_spec (cid : String) (stage : Option String)
    (outcome : Except String Unit) :
    (approveContent cid stage).path = "/api/content/" ++ cid ++ "/review/approve" ∧
    ((stage = none ∨ stage = some "") →
      (approveContent cid stage).target_stage = "scheduled") ∧
    (∀ v, stage = some v → v ≠ "" → (approveContent cid stage).target_stage = v) ∧
    (approveClick (some cid) outcome).1
        = some ⟨"/api/content/" ++ cid ++ "/review/approve", "scheduled"⟩ ∧
    (approvePublishClick (some cid) outcome).1
        = some ⟨"/api/content/" ++ cid ++ "/review/approve", "published"⟩ ∧
    (outcome = Except.ok () →
      (approveClick (some cid) outcome).2 = some "/content" ∧
      (approvePublishClick (some cid) outcome).2 = some "/content") ∧
    (∀ e, outcome = Except.error e →
      (approveClick (some cid) outcome).2 = none ∧
      (approvePublishClick (some cid) outcome).2 = none) := by
  refine ⟨rfl, ?_, ?_, ?_, ?_, ?_, ?_⟩
  · rintro (h | h) <;> subst h <;> rfl
  · intro v hv hne
    subst hv
    simp [approveContent, jsOrStr, hne]
  · cases outcome <;> rfl
  · cases outcome <;> rfl
  · intro h; subst h; exact ⟨rfl, rfl⟩
  · intro e h; subst h; exact ⟨rfl, rfl⟩

/-- Witness for C3 at a concrete approval: content abc, both buttons, a
successful outcome. -/
theorem c3_approve_witness :
    (approveContent "abc" none).target_stage = "scheduled" ∧
    (approveContent "abc" (some "")).target_stage = "scheduled" ∧
    (approveContent "abc" (some "published")).target_stage = "published" ∧
    (approveClick (some "abc") (Except.ok ())).2 = some "/content" := by
  refine ⟨(c3_approve_spec "abc" none (Except.ok ())).2.1 (Or.inl rfl),
    (c3_approve_spec "abc" (some "") (Except.ok ())).2.1 (Or.inr rfl),
    (c3_approve_spec "abc" (some "published") (Except.ok ())).2.2.1
      "published" rfl (by decide),
    ((c3_approve_spec "abc" none (Except.ok ())).2.2.2.2.2.1 rfl).1⟩

/-- Claim C4: no reject request is sent unless the trimmed feedback is
non-empty (handleReject returns early and the modal confirm button is
disabled); a sent request's target stage is exactly research or draft, with
draft the default, and the transmitted feedback is the trimmed text. -/
theorem c4_reject_spec (id : Option String) (stage : RejectStage)
    (feedback : String) (rejecting : Bool) :
    (jsTrim feedback = "" →
      handleReject id stage feedback = none ∧
      rejectConfirmDisabled rejecting feedback = true) ∧
    (∀ req, handleReject id stage feedback = some req →
      (req.target_stage = "research" ∨ req.target_stage = "draft") ∧
      req.feedback = jsTrim feedback ∧
      (∃ cid, id = some cid ∧ req.path = "/api/content/" ++ cid ++ "/review/reject")) ∧
    initialRejectStage = RejectStage.draft := by
  refine ⟨?_, ?_, rfl⟩
  · intro h
    constructor
    · cases id with
      | none => rfl
      | some cid => simp [handleReject, h]
    · simp [rejectConfirmDisabled, h]
  · intro req hreq
    cases id with
    | none => simp [handleReject] at hreq
    | some cid =>
      by_cases h : jsTrim feedback = ""
      · simp [handleReject, h] at hreq
      · simp [handleReject, h] at hreq
        subst hreq
        refine ⟨?_, rfl, cid, rfl, rfl⟩
        cases stage
        · exact Or.inl rfl
        · exact Or.inr rfl

/-- Witness for C4 at a concrete rejection: empty feedback blocks, trimmed
feedback is transmitted to the draft stage. -/
theorem c4_reject_witness :
    handleReject (some "c1") RejectStage.draft "   " = none ∧
    rejectConfirmDisabled false "   " = true ∧
    ((handleReject (some "c1") RejectStage.research " fix the intro ").map
        (fun r => r.feedback)) = some "fix the intro" := by
  have h1 := (c4_reject_spec (some "c1") RejectStage.draft "   " false).1 (by decide)
  have h2 := (c4_reject_spec (some "c1") RejectStage.research " fix the intro " false).2.1
  refine ⟨h1.1, h1.2, ?_⟩
  cases hr : handleReject (some "c1") RejectStage.research " fix the intro " with
  | none => exact absurd hr (by decide)
  | some req =>
    show some req.feedback = some "fix the intro"
    rw [(h2 req hr).2.1]
    decide

/-- Claim C2 as stated is false: after a chat update whose content has
neither final_md nor draft_md, the code leaves the editor content unchanged
(here the edited HTML), while the claim predicts the empty string.  The
markdown-to-HTML conversion is taken to be the identity here. -/
theorem c2_editor_counterexample :
    loadContentIntoEditor (fun h => h) (some "<p>edited</p>")
        (contentMd contentWithoutMarkdown) = some "<p>edited</p>" ∧
    claimedLoadedEditor (fun h => h) contentWithoutMarkdown = "" ∧
    loadContentIntoEditor (fun h => h) (some "<p>edited</p>")
        (contentMd contentWithoutMarkdown)
      ≠ some (claimedLoadedEditor (fun h => h) contentWithoutMarkdown) := by
  decide

/-- Claim C2 amended: when content is loaded, initially or after a chat
update, and the selected markdown (final_md when non-empty, otherwise
draft_md, otherwise the empty string) is non-empty, the editor is set to the
HTML produced by marked.parse on it; when the selected markdown is empty the
editor is left unchanged (so it holds the empty string on first load); and
Save Changes submits to createRevision exactly the turndown conversion of
the editor's current HTML. -/
theorem c2_editor_spec (markedParse turndownFn : String → String) (c : Content)
    (cur html : String) (rid : Option String) :
    (contentMd c ≠ "" →
      initialEditorLoad markedParse (some cur) (contentMd c)
          = some (markedParse (contentMd c)) ∧
      loadContentIntoEditor markedParse (some cur) (contentMd c)
          = some (markedParse (contentMd c))) ∧
    (contentMd c = "" →
      initialEditorLoad markedParse (some cur) (contentMd c) = some cur ∧
      loadContentIntoEditor markedParse (some cur) (contentMd c) = some cur) ∧
    (∀ s, c.final_md = some s → s ≠ "" → contentMd c = s) ∧
    (jsTruthy c.final_md = false →
      ∀ d, c.draft_md = some d → d ≠ "" → contentMd c = d) ∧
    (jsTruthy c.final_md = false → jsTruthy c.draft_md = false →
      contentMd c = "") ∧
    (∀ cid, rid = some cid →
      handleSave turndownFn (some html) rid = some (cid, turndownFn html)) := by
  refine ⟨?_, ?_, ?_, ?_, ?_, ?_⟩
  · intro h
    exact ⟨by simp [initialEditorLoad, h], by simp [loadContentIntoEditor, h]⟩
  · intro h
    exact ⟨by simp [initialEditorLoad, h], by simp [loadContentIntoEditor, h]⟩
  · intro s hs hne
    simp [contentMd, jsOrStr, hs, hne]
  · intro hf d hd hdne
    cases hfm : c.final_md with
    | none => simp [contentMd, jsOrStr, hfm, hd, hdne]
    | some s =>
      rw [hfm] at hf
      simp only [jsTruthy, decide_eq_false_iff_not, ne_eq, not_not] at hf
      simp [contentMd, jsOrStr, hfm, hf, hd, hdne]
  · intro hf hd
    cases hfm : c.final_md with
    | none =>
      cases hdm : c.draft_md with
      | none => simp [contentMd, jsOrStr, hfm, hdm]
      | some d =>
        rw [hdm] at hd
        simp only [jsTruthy, decide_eq_false_iff_not, ne_eq, not_not] at hd
        simp [contentMd, jsOrStr, hfm, hdm, hd]
    | some s =>
      rw [hfm] at hf
      simp only [jsTruthy, decide_eq_false_iff_not, ne_eq, not_not] at hf
      cases hdm : c.draft_md with
      | none => simp [contentMd, jsOrStr, hfm, hdm, hf]
      | some d =>
        rw [hdm] at hd
        simp only [jsTruthy, decide_eq_false_iff_not, ne_eq, not_not] at hd
        simp [contentMd, jsOrStr, hfm, hdm, hf, hd]
  · intro cid hc
    subst hc
    rfl

/-- Witness for the amended C2 at a concrete content: a non-empty final
draft is parsed into the editor and the save path round-trips through the
turndown conversion. -/
theorem c2_editor_witness :
    contentMd { emptyContent with final_md := some "# T" } ≠ "" ∧
    loadContentIntoEditor (fun h => "<h1>" ++ h ++ "</h1>") (some "old")
        (contentMd { emptyContent with final_md := some "# T" })
      = some "<h1># T</h1>" ∧
    handleSave (fun h => "md:" ++ h) (some "<p>x</p>") (some "c3")
      = some ("c3", "md:<p>x</p>") := by
  have h := c2_editor_spec (fun h => "<h1>" ++ h ++ "</h1>") (fun h => "md:" ++ h)
    { emptyContent with final_md := some "# T" } "old" "<p>x</p>" (some "c3")
  exact ⟨by decide, (h.1 (by decide)).2, h.2.2.2.2.2 "c3" rfl⟩

/-- Claim C6 as stated is false at a set but zero limit filter: the claim
predicts a query string containing limit=0, while the code's truthiness test
omits a zero limit entirely, leaving a URL with no question mark. -/
theorem c6_fetch_ideas_counterexample :
    fetchIdeasParams (some ⟨none, none, none, some 0⟩) = [] ∧
    claimedIdeasParams ⟨none, none, none, some 0⟩ = [("limit", "0")] ∧
    fetchIdeasParams (some ⟨none, none, none, some 0⟩)
        ≠ claimedIdeasParams ⟨none, none, none, some 0⟩ ∧
    fetchIdeasUrl "s1" (some ⟨none, none, none, some 0⟩) = "/api/sites/s1/ideas" := by
  refine ⟨rfl, rfl, ?_, rfl⟩
  decide

/-- Claim C6 amended: the query carries exactly the filters that are set and
truthy, in the order status, watch_topic_id, min_score, limit, each with its
given value, where a set limit of zero is also omitted; with no filters the
URL has no query part; and the Ideas tab passes the selected status and
watch-topic values through unchanged, with the All choices omitted. -/
theorem c6_fetch_ideas_spec (f : IdeaFilters) (siteId statusFilter wtFilter : String) :
    fetchIdeasParams (some f) = amendedIdeasParams f ∧
    fetchIdeasParams none = [] ∧
    fetchIdeasUrl siteId none = "/api/sites/" ++ siteId ++ "/ideas" ∧
    (fetchIdeasParams (some f) = [] →
      fetchIdeasUrl siteId (some f) = "/api/sites/" ++ siteId ++ "/ideas") ∧
    fetchIdeasParams (ideasTabFilters statusFilter wtFilter)
        = (if statusFilter = "" then [] else [("status", statusFilter)])
          ++ (if wtFilter = "" then [] else [("watch_topic_id", wtFilter)]) := by
  have hnil : serializeParams (fetchIdeasParams none) = "" := by decide
  refine ⟨?_, rfl, ?_, ?_, ?_⟩
  · rcases f with ⟨st, wt, ms, li⟩
    simp only [fetchIdeasParams, amendedIdeasParams]
    have seg : ∀ (name : String) (o : Option String),
        (if jsTruthy o then [(name, o.getD "")] else [])
          = (match o with
             | some s => if s = "" then [] else [(name, s)]
             | none => []) := by
      intro name o
      cases o with
      | none => simp [jsTruthy]
      | some s => by_cases h : s = "" <;> simp [jsTruthy, h]
    have segLimit : ∀ o : Option Int,
        (match o with
         | some n => if n ≠ 0 then [("limit", toString n)] else []
         | none => ([] : List (String × String)))
          = (match o with
             | some n => if n = 0 then [] else [("limit", toString n)]
             | none => []) := by
      intro o
      cases o with
      | none => rfl
      | some n => by_cases h : n = 0 <;> simp [h]
    rw [seg, seg, seg, segLimit]
  · simp [fetchIdeasUrl, hnil]
  · intro h
    have hi : "&".intercalate ([] : List String) = "" := by decide
    simp [fetchIdeasUrl, h, serializeParams, hi]
  · by_cases hs : statusFilter = "" <;> by_cases hw : wtFilter = "" <;>
      simp [ideasTabFilters, fetchIdeasParams, jsTruthy, hs, hw]

/-- Witness for the amended C6 at concrete filters: a status filter and a
zero limit produce only the status parameter, and the Ideas tab maps the
All-statuses choice to no parameters. -/
theorem c6_fetch_ideas_witness :
    fetchIdeasParams (some ⟨some "proposed", none, none, some 0⟩)
        = amendedIdeasParams ⟨some "proposed", none, none, some 0⟩ ∧
    fetchIdeasParams (ideasTabFilters "" "wt1")
        = [("watch_topic_id", "wt1")] ∧
    fetchIdeasUrl "s2" (some ⟨none, none, none, none⟩) = "/api/sites/s2/ideas" := by
  refine ⟨(c6_fetch_ideas_spec ⟨some "proposed", none, none, some 0⟩ "s2" "" "wt1").1, ?_,
    (c6_fetch_ideas_spec ⟨none, none, none, none⟩ "s2" "" "wt1").2.2.2.1 (by decide)⟩
  have h2 := (c6_fetch_ideas_spec ⟨some "proposed", none, none, some 0⟩ "s2" "" "wt1").2.2.2.2
  simpa using h2

/-- Claim C7: apiFetch throws No auth token without issuing a request when no
truthy token is stored under pipeline_token (null and the empty string alike,
the JS truthiness of if (!token)); every issued request goes to the fixed
base URL followed by the path; a non-ok response throws API, the status code,
colon-space and the body text; an ok response yields the parsed JSON
payload. -/
theorem c7_api_fetch_spec {J : Type} (token : Option String) (path method : String)
    (server : HttpRequest → HttpResponse J) :
    (jsTruthy token = false →
      apiFetch token path method server = (none, Except.error "No auth token")) ∧
    (jsTruthy token = true →
      (apiFetch token path method server).1 = some ⟨BASE_URL ++ path, method⟩ ∧
      (respOk (server ⟨BASE_URL ++ path, method⟩).status = true →
        (apiFetch token path method server).2
            = Except.ok (server ⟨BASE_URL ++ path, method⟩).json) ∧
      (respOk (server ⟨BASE_URL ++ path, method⟩).status = false →
        (apiFetch token path method server).2
            = Except.error ("API " ++ toString (server ⟨BASE_URL ++ path, method⟩).status
                ++ ": " ++ (server ⟨BASE_URL ++ path, method⟩).bodyText))) ∧
    (∀ st : Nat, respOk st = true ↔ 200 ≤ st ∧ st ≤ 299) := by
  refine ⟨?_, ?_, ?_⟩
  · intro h
    simp [apiFetch, h]
  · intro ht
    refine ⟨by simp [apiFetch, ht], ?_, ?_⟩
    · intro hok
      simp [apiFetch, ht, hok]
    · intro hbad
      simp [apiFetch, ht, hbad]
  · intro st
    simp [respOk]

/-- Witness for C7 at concrete calls: a missing token and a stored empty
token both short-circuit, a 404 with body text throws the formatted message,
a 200 returns the payload. -/
theorem c7_api_fetch_witness :
    apiFetch (J := Nat) none "/api/sites" "GET" (fun _ => ⟨200, "", 7⟩)
        = (none, Except.error "No auth token") ∧
    apiFetch (J := Nat) (some "") "/api/sites" "GET" (fun _ => ⟨200, "", 7⟩)
        = (none, Except.error "No auth token") ∧
    (apiFetch (J := Nat) (some "tok") "/api/sites" "GET"
        (fun _ => ⟨404, "not found", 7⟩)).2 = Except.error "API 404: not found" ∧
    (apiFetch (J := Nat) (some "tok") "/api/sites" "GET"
        (fun _ => ⟨200, "", 7⟩)).2 = Except.ok 7 := by
  refine ⟨(c7_api_fetch_spec none "/api/sites" "GET"
      (fun _ => ⟨200, "", 7⟩)).1 (by decide),
    (c7_api_fetch_spec (some "") "/api/sites" "GET"
      (fun _ => ⟨200, "", 7⟩)).1 (by decide), ?_, ?_⟩
  · have h := ((c7_api_fetch_spec (some "tok") "/api/sites" "GET"
      (fun _ => ⟨404, "not found", 7⟩)).2.1 (by decide)).2.2 (by decide)
    simpa using h
  · exact ((c7_api_fetch_spec (some "tok") "/api/sites" "GET"
      (fun _ => ⟨200, "", 7⟩)).2.1 (by decide)).2.1 (by decide)

/-- Claim C10 as stated is false when the saved selected_site_id is the
empty string and a fetched site has the empty id: the claim predicts that
site is selected, but the code's truthiness test skips the lookup and the
first fetched site wins. -/
theorem c10_site_selection_counterexample :
    (siteProviderLoad ⟨some "tok", some ""⟩
        (Except.ok [siteA, siteB])).selectedSite = some siteA ∧
    claimedSelectedSite (some "") [siteA, siteB] = some siteB ∧
    (some siteA : Option Site) ≠ some siteB := by
  decide

/-- Claim C10 amended: with a truthy stored token, after the fetch the
selected site is the first fetched site whose id equals the saved
selected_site_id when that saved value is non-empty and matches, otherwise
the first fetched site, otherwise null; selecting a site writes its id back;
and with no truthy token no fetch occurs and loading ends with an empty site
list. -/
theorem c10_site_selection_spec (store : Store)
    (fetch : Except String (List Site)) (s : List Site) (site : Site) :
    (jsTruthy store.pipeline_token = false →
      siteProviderLoad store fetch = ⟨false, [], none, false, none⟩) ∧
    (jsTruthy store.pipeline_token = true → fetch = Except.ok s →
      (siteProviderLoad store fetch).sites = s ∧
      (siteProviderLoad store fetch).selectedSite
          = amendedSelectedSite store.selected_site_id s ∧
      (siteProviderLoad store fetch).loading = false ∧
      (siteProviderLoad store fetch).fetched = true) ∧
    (selectSite store site).1.selected_site_id = some site.id ∧
    (selectSite store site).2 = site := by
  refine ⟨?_, ?_, rfl, rfl⟩
  · intro h
    simp [siteProviderLoad, h]
  · intro ht hf
    subst hf
    cases hsv : store.selected_site_id with
    | none =>
      refine ⟨by simp [siteProviderLoad, ht, hsv], ?_, by simp [siteProviderLoad, ht, hsv],
        by simp [siteProviderLoad, ht, hsv]⟩
      simp [siteProviderLoad, ht, hsv, amendedSelectedSite]
    | some sv =>
      by_cases he : sv = ""
      · subst he
        refine ⟨by simp [siteProviderLoad, ht, hsv], ?_, by simp [siteProviderLoad, ht, hsv],
          by simp [siteProviderLoad, ht, hsv]⟩
        simp [siteProviderLoad, ht, hsv, amendedSelectedSite]
      · refine ⟨by simp [siteProviderLoad, ht, hsv], ?_, by simp [siteProviderLoad, ht, hsv],
          by simp [siteProviderLoad, ht, hsv]⟩
        simp only [siteProviderLoad, ht, hsv, amendedSelectedSite, if_neg he]
        cases s.find? (fun site => site.id == sv) <;> simp

/-- Witness for the amended C10 at a concrete store: a saved id that matches
a fetched site is selected, and selecting a site writes its id back. -/
theorem c10_site_selection_witness :
    (siteProviderLoad ⟨some "tok", some "a1"⟩
        (Except.ok [siteB, siteA])).selectedSite
      = amendedSelectedSite (some "a1") [siteB, siteA] ∧
    (selectSite ⟨some "tok", some "a1"⟩ siteA).1.selected_site_id = some "a1" := by
  have h := c10_site_selection_spec ⟨some "tok", some "a1"⟩
    (Except.ok [siteB, siteA]) [siteB, siteA] siteA
  exact ⟨(h.2.1 (by decide) rfl).2.1, h.2.2.1⟩

/-- The head of a left-trimmed list is never whitespace. -/
theorem trimLeftChars_head (l : List Char) :
    ∀ c, (trimLeftChars l).head? = some c → c.isWhitespace = false := by
  induction l with
  | nil => intro c h; simp [trimLeftChars] at h
  | cons a l ih =>
    intro c h
    by_cases ha : a.isWhitespace
    · rw [trimLeftChars, if_pos ha] at h
      exact ih c h
    · rw [trimLeftChars, if_neg ha] at h
      simp only [List.head?_cons, Option.some.injEq] at h
      subst h
      exact Bool.eq_false_iff.mpr ha

/-- Left-trimming a list whose head is not whitespace is the identity. -/
theorem trimLeftChars_eq_self (l : List Char)
    (h : ∀ c, l.head? = some c → c.isWhitespace = false) : trimLeftChars l = l := by
  cases l with
  | nil => rfl
  | cons a l =>
    have ha := h a rfl
    rw [trimLeftChars, if_neg (by simp [ha])]

/-- Left-trimming is idempotent. -/
theorem trimLeftChars_idem (l : List Char) :
    trimLeftChars (trimLeftChars l) = trimLeftChars l :=
  trimLeftChars_eq_self _ (trimLeftChars_head l)

/-- Left-trimming drops an initial segment of the list. -/
theorem trimLeftChars_eq_drop (l : List Char) : ∃ k, trimLeftChars l = l.drop k := by
  induction l with
  | nil => exact ⟨0, rfl⟩
  | cons a l ih =>
    by_cases ha : a.isWhitespace
    · obtain ⟨k, hk⟩ := ih
      exact ⟨k + 1, by rw [trimLeftChars, if_pos ha]; simpa using hk⟩
    · exact ⟨0, by rw [trimLeftChars, if_neg ha, List.drop_zero]⟩

/-- Taking a front part preserves a non-whitespace head. -/
theorem head_take_noLead (l : List Char) (n : Nat)
    (h : ∀ c, l.head? = some c → c.isWhitespace = false) :
    ∀ c, (l.take n).head? = some c → c.isWhitespace = false := by
  cases l with
  | nil => intro c hc; simp at hc
  | cons a l =>
    cases n with
    | zero => intro c hc; simp at hc
    | succ n =>
      intro c hc
      simp only [List.take_succ_cons, List.head?_cons, Option.some.injEq] at hc
      subst hc
      exact h a rfl

/-- The JS trim is idempotent: trimming a trimmed string changes nothing. -/
theorem jsTrim_idem (s : String) : jsTrim (jsTrim s) = jsTrim s := by
  have key : ∀ l : List Char,
      (trimLeftChars ((trimLeftChars
          ((trimLeftChars ((trimLeftChars l).reverse)).reverse)).reverse)).reverse
        = (trimLeftChars ((trimLeftChars l).reverse)).reverse := by
    intro l
    obtain ⟨k, hk⟩ := trimLeftChars_eq_drop (trimLeftChars l).reverse
    have hd0 : (trimLeftChars (trimLeftChars l).reverse).reverse
        = (trimLeftChars l).take ((trimLeftChars l).length - k) := by
      rw [hk, List.drop_reverse, List.reverse_reverse]
    have hnoLead : ∀ c,
        ((trimLeftChars (trimLeftChars l).reverse).reverse).head? = some c →
          c.isWhitespace = false := by
      rw [hd0]
      exact head_take_noLead _ _ (trimLeftChars_head l)
    have h1 := trimLeftChars_eq_self _ hnoLead
    rw [h1, List.reverse_reverse, trimLeftChars_idem]
  show String.mk _ = String.mk _
  exact congrArg String.mk (key s.data)

/-- A duplicate-free list of length at least two keeps an element after one
value is filtered away. -/
theorem filter_ne_nonempty {α : Type} [DecidableEq α] (a b : α) (rest : List α)
    (x : α) (hnd : (a :: b :: rest).Nodup) :
    (a :: b :: rest).filter (fun s => s ≠ x) ≠ [] := by
  have hab : a ≠ b := by
    have h := (List.nodup_cons.mp hnd).1
    intro hab
    exact h (hab ▸ List.mem_cons_self b rest)
  by_cases hax : a = x
  · have hbx : b ≠ x := fun hbx => hab (by rw [hax, hbx])
    have hb : b ∈ (a :: b :: rest).filter (fun s => s ≠ x) :=
      List.mem_filter.mpr ⟨by simp, by simpa using hbx⟩
    exact List.ne_nil_of_mem hb
  · have ha : a ∈ (a :: b :: rest).filter (fun s => s ≠ x) :=
      List.mem_filter.mpr ⟨by simp, by simpa using hax⟩
    exact List.ne_nil_of_mem ha

/-- One form event preserves the C9 invariant. -/
theorem watch_topic_form_step_inv (f : WatchTopicFormState)
    (e : WatchTopicFormEvent) (h : WatchTopicFormInv f) :
    WatchTopicFormInv (stepWatchTopicForm f e) := by
  obtain ⟨h1, h2, h3, h4⟩ := h
  cases e with
  | addKw input =>
    show WatchTopicFormInv (addKeyword f input)
    unfold addKeyword
    by_cases hc : jsTrim input ≠ "" ∧ jsTrim input ∉ f.keywords
    · rw [if_pos hc]
      refine ⟨h1, h2, ?_, ?_⟩
      · simp [List.nodup_append, h3, hc.2]
      · intro kw hkw
        rcases List.mem_append.mp hkw with hkw | hkw
        · exact h4 kw hkw
        · simp only [List.mem_singleton] at hkw
          subst hkw
          exact ⟨hc.1, jsTrim_idem input⟩
    · rw [if_neg hc]
      exact ⟨h1, h2, h3, h4⟩
  | removeKw kw =>
    exact ⟨h1, h2, h3.filter _,
      fun k hk => h4 k (List.mem_of_mem_filter hk)⟩
  | toggleSrc src =>
    show WatchTopicFormInv (toggleSource f src)
    unfold toggleSource
    by_cases hm : src ∈ f.source_types
    · rw [if_pos hm]
      by_cases hlen : f.source_types.length ≤ 1
      · rw [if_pos hlen]
        exact ⟨h1, h2, h3, h4⟩
      · rw [if_neg hlen]
        refine ⟨?_, h2.filter _, h3, h4⟩
        cases hst : f.source_types with
        | nil => rw [hst] at hlen; simp at hlen
        | cons a l1 =>
          cases hl1 : l1 with
          | nil => rw [hst, hl1] at hlen; simp at hlen
          | cons b l2 =>
            rw [hst, hl1] at h2
            exact filter_ne_nonempty a b l2 src h2
    · rw [if_neg hm]
      refine ⟨by simp, ?_, h3, h4⟩
      simp [List.nodup_append, h2, hm]

/-- Claim C9: from its initial state (keywords empty, source_types [google])
the new-watch-topic form keeps the source list non-empty and duplicate-free
under any sequence of toggles, and the keyword list duplicate-free with only
non-empty, trimmed entries; hence every createWatchTopic submission carries
at least one source type. -/
theorem c9_watch_topic_form_spec (events : List WatchTopicFormEvent) (name : String) :
    WatchTopicFormInv (runWatchTopicForm events) ∧
    (∀ req, watchTopicSubmit (runWatchTopicForm events) name = some req →
      req.source_types ≠ [] ∧ req.source_types.Nodup ∧ req.keywords.Nodup) := by
  have hrun : ∀ (evs : List WatchTopicFormEvent) (f : WatchTopicFormState),
      WatchTopicFormInv f → WatchTopicFormInv (evs.foldl stepWatchTopicForm f) := by
    intro evs
    induction evs with
    | nil => intro f h; exact h
    | cons e evs ih =>
      intro f h
      exact ih _ (watch_topic_form_step_inv f e h)
  have hinit : WatchTopicFormInv initialWatchTopicForm := by
    refine ⟨by simp [initialWatchTopicForm], by simp [initialWatchTopicForm],
      by simp [initialWatchTopicForm], ?_⟩
    intro kw hkw
    simp [initialWatchTopicForm] at hkw
  have hinv : WatchTopicFormInv (runWatchTopicForm events) := hrun events _ hinit
  refine ⟨hinv, ?_⟩
  intro req hreq
  unfold watchTopicSubmit at hreq
  by_cases hn : jsTrim name = ""
  · rw [if_pos hn] at hreq
    exact absurd hreq (by simp)
  · rw [if_neg hn] at hreq
    have hr := Option.some.inj hreq
    subst hr
    exact ⟨hinv.1, hinv.2.1, hinv.2.2.1⟩

/-- Witness for C9 at a concrete event sequence that exercises the add,
duplicate-toggle, removal-refusal and trimming paths. -/
theorem c9_watch_topic_form_witness :
    WatchTopicFormInv (runWatchTopicForm
      [WatchTopicFormEvent.toggleSrc "twitter", WatchTopicFormEvent.addKw "  ai  ",
       WatchTopicFormEvent.toggleSrc "google", WatchTopicFormEvent.toggleSrc "twitter"]) ∧
    runWatchTopicForm
      [WatchTopicFormEvent.toggleSrc "twitter", WatchTopicFormEvent.addKw "  ai  ",
       WatchTopicFormEvent.toggleSrc "google", WatchTopicFormEvent.toggleSrc "twitter"]
      = ⟨["ai"], ["twitter"]⟩ ∧
    (watchTopicSubmit ⟨["ai"], ["twitter"]⟩ " My Topic ").map
        (fun r => r.source_types) = some ["twitter"] := by
  refine ⟨(c9_watch_topic_form_spec _ " My Topic ").1, by decide, by decide⟩

/-- A left fold that adds f of each element equals the initial value plus
the sum of the mapped list. -/
theorem foldl_add_eq_sum {α M : Type} [AddCommMonoid M] (f : α → M) :
    ∀ (l : List α) (i : M), l.foldl (fun s t => s + f t) i = i + (l.map f).sum := by
  intro l
  induction l with
  | nil => intro i; simp
  | cons a l ih =>
    intro i
    simp only [List.foldl_cons, List.map_cons, List.sum_cons, ih, add_assoc]

/-- Summing pointwise quotients equals the quotient of the sum. -/
theorem sum_map_div_rat {α : Type} (f : α → Rat) (n : Rat) :
    ∀ l : List α, (l.map (fun c => f c / n)).sum = (l.map f).sum / n := by
  intro l
  induction l with
  | nil => simp
  | cons a l ih => simp [ih, add_div]

/-- A pointwise sum of two natural maps splits. -/
theorem sum_map_nat_add {α : Type} (f g : α → Nat) :
    ∀ S : List α, (S.map (fun s => f s + g s)).sum = (S.map f).sum + (S.map g).sum := by
  intro S
  induction S with
  | nil => rfl
  | cons a S ih => simp [ih]; omega

/-- Over a duplicate-free list, the sum of equality indicators is the
membership indicator. -/
theorem sum_indicator_nodup (x : String) :
    ∀ S : List String, S.Nodup →
      (S.map (fun s => if x == s then 1 else 0)).sum = (if x ∈ S then 1 else 0) := by
  intro S
  induction S with
  | nil => intro _; simp
  | cons a S ih =>
    intro hnd
    have hnd' := List.nodup_cons.mp hnd
    by_cases hxa : x = a
    · subst hxa
      rw [List.map_cons, List.sum_cons, ih hnd'.2]
      simp [hnd'.1]
    · rw [List.map_cons, List.sum_cons, ih hnd'.2]
      have hb : (x == a) = false := by simp [hxa]
      simp [hb, List.mem_cons, hxa]

/-- The per-stage counts over a duplicate-free stage list add up to the
count of items whose stage is in the list. -/
theorem countP_stage_partition (S : List String) (hS : S.Nodup) :
    ∀ l : List Content,
      (S.map (fun s => l.countP (fun c => c.stage == s))).sum
        = l.countP (fun c => decide (c.stage ∈ S)) := by
  intro l
  induction l with
  | nil =>
    simp [List.countP_nil]
  | cons c l ih =>
    simp only [List.countP_cons]
    rw [sum_map_nat_add, ih, sum_indicator_nodup c.stage S hS]
    by_cases h : c.stage ∈ S <;> simp [h]

/-- Looking up a key of a duplicate-free association list built by mapping
pairs over the key list returns the mapped value. -/
theorem lookup_map_pair {β : Type} (f : String → β) :
    ∀ (S : List String) (s : String), s ∈ S → S.Nodup →
      (S.map (fun x => (x, f x))).lookup s = some (f s) := by
  intro S
  induction S with
  | nil => intro s hs _; simp at hs
  | cons a S ih =>
    intro s hs hnd
    have hnd' := List.nodup_cons.mp hnd
    by_cases hsa : s = a
    · subst hsa
      simp [List.lookup]
    · have hmem : s ∈ S := by
        rcases List.mem_cons.mp hs with h | h
        · exact absurd h hsa
        · exact h
      have hb : (s == a) = false := by simp [hsa]
      simp [List.lookup, hb, ih s hmem hnd'.2]

/-- Claim C8: each dashboard stage bucket counts exactly the items whose
stage equals that stage; the buckets together count exactly the items whose
stage lies in STAGES, so an out-of-STAGES stage such as failed lands in no
bucket while still counting toward the totals; In Pipeline is the total
minus the published count; and the average quality is the arithmetic mean of
quality_score over exactly the items where it is non-null, 0 when there are
none. -/
theorem c8_dashboard_spec (content : List Content) :
    (∀ s ∈ STAGES, (stageCounts content).lookup s
        = some ((content.filter (fun c => c.stage == s)).length)) ∧
    ((stageCounts content).map (fun p => p.2)).sum
        = (content.filter (fun c => decide (c.stage ∈ STAGES))).length ∧
    "failed" ∉ STAGES ∧
    totalContent content = content.length ∧
    inPipeline content = totalContent content - publishedCount content ∧
    publishedCount content = (content.filter (fun c => c.stage == "published")).length ∧
    avgQuality content =
      (if qualityItems content = [] then 0
       else ((qualityItems content).map (fun c => c.quality_score.getD 0)).sum
          / ((qualityItems content).length : Rat)) ∧
    qualityItems content = content.filter (fun c => c.quality_score ≠ none) := by
  have hnd : STAGES.Nodup := by decide
  refine ⟨?_, ?_, by decide, rfl, rfl, rfl, ?_, rfl⟩
  · intro s hs
    exact lookup_map_pair (fun s => (content.filter (fun c => c.stage == s)).length)
      STAGES s hs hnd
  · have h1 : ((stageCounts content).map (fun p => p.2)).sum
        = (STAGES.map (fun s => content.countP (fun c => c.stage == s))).sum := by
      unfold stageCounts
      rw [List.map_map]
      exact congrArg List.sum
        (List.map_congr_left (fun s _ => (List.countP_eq_length_filter _ _).symm))
    rw [h1, countP_stage_partition STAGES hnd content,
      List.countP_eq_length_filter]
  · unfold avgQuality
    rw [foldl_add_eq_sum (fun c : Content => c.quality_score.getD 0
        / ((qualityItems content).length : Rat)),
      zero_add, sum_map_div_rat]
    by_cases h : qualityItems content = []
    · rw [if_pos h, h]
      simp
    · rw [if_neg h]

/-- Witness for C8 at a concrete content list with a review item, a
published item and a failed item, two of which carry quality scores. -/
theorem c8_dashboard_witness :
    "review" ∈ STAGES ∧
    (stageCounts c8list).lookup "review" = some 1 ∧
    avgQuality c8list = 3 / 8 := by
  have h := c8_dashboard_spec c8list
  refine ⟨by decide, ?_, ?_⟩
  · rw [h.1 "review" (by decide)]
    decide
  · rw [h.2.2.2.2.2.2.1]
    have hq : qualityItems c8list
        = [{ emptyContent with stage := "review", quality_score := some (1/2) },
           { emptyContent with stage := "published", quality_score := some (1/4) }] := by
      simp [qualityItems, c8list, emptyContent]
    rw [hq, if_neg (by simp)]
    simp only [List.map_cons, List.map_nil, List.sum_cons, List.sum_nil,
      List.length_cons, List.length_nil, Option.getD_some]
    norm_num

/-- Inserting into a list permutes with consing. -/
theorem jsInsert_perm {α : Type} (le : α → α → Bool) (a : α) :
    ∀ l : List α, (jsInsert le a l).Perm (a :: l) := by
  intro l
  induction l with
  | nil => exact List.Perm.refl _
  | cons b l ih =>
    by_cases h : le a b = true
    · rw [jsInsert, if_pos h]
    · rw [jsInsert, if_neg h]
      exact (ih.cons b).trans (List.Perm.swap a b l)

/-- The stable sort is a permutation of its input. -/
theorem jsSort_perm {α : Type} (le : α → α → Bool) :
    ∀ l : List α, (jsSort le l).Perm l := by
  intro l
  induction l with
  | nil => exact List.Perm.refl _
  | cons a l ih =>
    rw [jsSort]
    exact (jsInsert_perm le a (jsSort le l)).trans (ih.cons a)

/-- Membership in an insertion. -/
theorem mem_jsInsert {α : Type} (le : α → α → Bool) (a x : α) (l : List α) :
    x ∈ jsInsert le a l ↔ x = a ∨ x ∈ l := by
  rw [(jsInsert_perm le a l).mem_iff, List.mem_cons]

/-- Inserting into a comparator-sorted list of elements of S keeps it sorted,
provided the comparator is total and transitive on S. -/
theorem pairwise_jsInsert {α : Type} (le : α → α → Bool) (S : List α)
    (htot : ∀ x ∈ S, ∀ y ∈ S, le x y = true ∨ le y x = true)
    (htrans : ∀ x ∈ S, ∀ y ∈ S, ∀ z ∈ S,
      le x y = true → le y z = true → le x z = true) :
    ∀ (l : List α) (a : α), a ∈ S → (∀ x ∈ l, x ∈ S) →
      l.Pairwise (fun x y => le x y = true) →
      (jsInsert le a l).Pairwise (fun x y => le x y = true) := by
  intro l
  induction l with
  | nil =>
    intro a _ _ _
    simp [jsInsert]
  | cons b l ih =>
    intro a haS hsub hl
    have hbS : b ∈ S := hsub b (by simp)
    have hlsub : ∀ x ∈ l, x ∈ S := fun x hx => hsub x (by simp [hx])
    obtain ⟨hb, hl'⟩ := List.pairwise_cons.mp hl
    by_cases h : le a b = true
    · rw [jsInsert, if_pos h]
      refine List.Pairwise.cons ?_ hl
      intro y hy
      rcases List.mem_cons.mp hy with rfl | hy
      · exact h
      · exact htrans a haS b hbS y (hlsub y hy) h (hb y hy)
    · rw [jsInsert, if_neg h]
      refine List.Pairwise.cons ?_ (ih a haS hlsub hl')
      intro y hy
      rcases (mem_jsInsert le a y l).mp hy with rfl | hy
      · rcases htot y haS b hbS with h1 | h1
        · exact absurd h1 h
        · exact h1
      · exact hb y hy

/-- The stable sort of a list of elements of S is comparator-sorted,
provided the comparator is total and transitive on S. -/
theorem pairwise_jsSort {α : Type} (le : α → α → Bool) (S : List α)
    (htot : ∀ x ∈ S, ∀ y ∈ S, le x y = true ∨ le y x = true)
    (htrans : ∀ x ∈ S, ∀ y ∈ S, ∀ z ∈ S,
      le x y = true → le y z = true → le x z = true) :
    ∀ l : List α, (∀ x ∈ l, x ∈ S) →
      (jsSort le l).Pairwise (fun x y => le x y = true) := by
  intro l
  induction l with
  | nil =>
    intro _
    simp [jsSort]
  | cons a l ih =>
    intro hsub
    rw [jsSort]
    refine pairwise_jsInsert le S htot htrans (jsSort le l) a (hsub a (by simp)) ?_
      (ih (fun x hx => hsub x (by simp [hx])))
    intro x hx
    exact hsub x (by simp [(jsSort_perm le l).mem_iff.mp hx])

/-- An entry of a JS Map after an insertion was already there or is the
inserted pair. -/
theorem mem_jsMapInsert (m : List (String × Content)) (k : String) (v : Content) :
    ∀ p ∈ jsMapInsert m k v, p ∈ m ∨ p = (k, v) := by
  intro p hp
  unfold jsMapInsert at hp
  by_cases h : m.any (fun q => q.1 == k)
  · rw [if_pos h] at hp
    obtain ⟨q, hq, hfq⟩ := List.mem_map.mp hp
    by_cases hqk : (q.1 == k) = true
    · right
      rw [← hfq, if_pos hqk]
    · left
      rw [← hfq, if_neg hqk]
      exact hq
  · rw [if_neg h] at hp
    rcases List.mem_append.mp hp with h1 | h1
    · exact Or.inl h1
    · right
      simpa using h1

/-- Every entry of the runs-page Map carries a content of the source list,
keyed by its run id. -/
theorem jsMapOfList_mem (l : List Content) :
    ∀ p ∈ jsMapOfList l, p.2 ∈ l ∧ p.1 = p.2.run_id.getD "" := by
  suffices h : ∀ (l : List Content) (m : List (String × Content)),
      ∀ p ∈ l.foldl (fun m c => jsMapInsert m (c.run_id.getD "") c) m,
        p ∈ m ∨ (p.2 ∈ l ∧ p.1 = p.2.run_id.getD "") by
    intro p hp
    rcases h l [] p hp with h1 | h1
    · simp at h1
    · exact h1
  intro l
  induction l with
  | nil =>
    intro m p hp
    exact Or.inl hp
  | cons c l ih =>
    intro m p hp
    rcases ih (jsMapInsert m (c.run_id.getD "") c) p hp with h1 | h1
    · rcases mem_jsMapInsert m (c.run_id.getD "") c p h1 with h2 | h2
      · exact Or.inl h2
      · subst h2
        exact Or.inr ⟨by simp, rfl⟩
    · exact Or.inr ⟨by simp [h1.1], h1.2⟩

/-- The key list of a JS Map insertion: unchanged for an existing key, the
new key appended otherwise. -/
theorem keys_jsMapInsert (m : List (String × Content)) (k : String) (v : Content) :
    (jsMapInsert m k v).map Prod.fst
      = if m.any (fun q => q.1 == k) then m.map Prod.fst
        else m.map Prod.fst ++ [k] := by
  unfold jsMapInsert
  by_cases h : m.any (fun q => q.1 == k)
  · rw [if_pos h, if_pos h, List.map_map]
    refine List.map_congr_left ?_
    intro q _
    by_cases hqk : (q.1 == k) = true
    · simp only [Function.comp_apply, if_pos hqk]
      exact (beq_iff_eq.mp hqk).symm
    · simp only [Function.comp_apply, if_neg hqk]
  · rw [if_neg h, if_neg h, List.map_append]
    rfl

/-- The key list of the runs-page Map has no duplicates. -/
theorem keys_nodup_jsMapOfList (l : List Content) :
    ((jsMapOfList l).map Prod.fst).Nodup := by
  suffices h : ∀ (l : List Content) (m : List (String × Content)),
      (m.map Prod.fst).Nodup →
      (((l.foldl (fun m c => jsMapInsert m (c.run_id.getD "") c) m)).map Prod.fst).Nodup by
    exact h l [] (by simp)
  intro l
  induction l with
  | nil =>
    intro m hm
    exact hm
  | cons c l ih =>
    intro m hm
    refine ih _ ?_
    rw [keys_jsMapInsert]
    by_cases h : m.any (fun q => q.1 == (c.run_id.getD ""))
    · rw [if_pos h]
      exact hm
    · rw [if_neg h]
      have hk : (c.run_id.getD "") ∉ m.map Prod.fst := by
        intro hmem
        obtain ⟨q, hq, hq1⟩ := List.mem_map.mp hmem
        exact h (List.any_eq_true.mpr ⟨q, hq, beq_iff_eq.mpr hq1⟩)
      simp [List.nodup_append, hm, hk]

/-- Mapping over a filterMap is a sublist of mapping over the source, when
the two maps agree along the partial function. -/
theorem filterMap_map_sublist {α β γ : Type} (f : α → Option β) (g : β → γ)
    (h : α → γ) (H : ∀ a b, f a = some b → g b = h a) :
    ∀ l : List α, ((l.filterMap f).map g).Sublist (l.map h) := by
  intro l
  induction l with
  | nil => simp
  | cons a l ih =>
    cases hfa : f a with
    | none =>
      rw [List.filterMap_cons_none hfa, List.map_cons]
      exact ih.cons (h a)
    | some b =>
      rw [List.filterMap_cons_some hfa, List.map_cons, List.map_cons, H a b hfa]
      exact ih.cons₂ (h a)

/-- Every group of the runs page comes from a fetched content with a truthy
run id whose traces were fetched successfully. -/
theorem mem_buildRunGroups (getTime : String → Option Int)
    (fetchTraces : String → Except String (List Trace))
    (contentList : List Content) (g : RunGroup)
    (hg : g ∈ buildRunGroups getTime fetchTraces contentList) :
    ∃ c ts, c ∈ contentList ∧ jsTruthy c.run_id = true ∧
      fetchTraces (c.run_id.getD "") = Except.ok ts ∧
      g = mkRunGroup getTime c ts := by
  unfold buildRunGroups at hg
  obtain ⟨c, hc, hfc⟩ := List.mem_filterMap.mp hg
  have hc' : c ∈ (jsMapOfList
      (contentList.filter (fun c => jsTruthy c.run_id))).map (fun p => p.2) :=
    List.mem_of_mem_take hc
  obtain ⟨p, hp, hpc⟩ := List.mem_map.mp hc'
  have hinv := jsMapOfList_mem _ p hp
  have hcf : c ∈ contentList.filter (fun c => jsTruthy c.run_id) := hpc ▸ hinv.1
  cases hft : fetchTraces (c.run_id.getD "") with
  | error e =>
    rw [hft] at hfc
    simp at hfc
  | ok ts =>
    rw [hft] at hfc
    simp only [Option.some.injEq] at hfc
    have ht : jsTruthy c.run_id = true := by simpa using List.of_mem_filter hcf
    exact ⟨c, ts, List.mem_of_mem_filter hcf, ht, hft, hfc.symm⟩

/-- Claim C5: the runs page builds at most 10 groups, with pairwise distinct
run ids each coming from a fetched content item with that run_id; within a
group the traces are the fetched traces ordered by ascending created_at
(when the timestamps parse); the three totals are the sums of total_tokens,
latency_ms and estimated_cost_usd over the group's traces with null summands
as 0; and the status is success when every trace succeeded, else error when
some trace errored, else running. -/
theorem c5_run_groups_spec (getTime : String → Option Int)
    (fetchTraces : String → Except String (List Trace))
    (contentList : List Content) :
    (buildRunGroups getTime fetchTraces contentList).length ≤ 10 ∧
    ((buildRunGroups getTime fetchTraces contentList).map (fun g => g.runId)).Nodup ∧
    (∀ g ∈ buildRunGroups getTime fetchTraces contentList,
      (∃ c ∈ contentList, c.run_id = some g.runId ∧ g.runId ≠ "") ∧
      (∀ ts, fetchTraces g.runId = Except.ok ts → g.traces.Perm ts) ∧
      ((∀ t ∈ g.traces, (traceTime getTime t).isSome = true) →
        g.traces.Pairwise (fun a b =>
          (traceTime getTime a).getD 0 ≤ (traceTime getTime b).getD 0)) ∧
      g.totalTokens = (g.traces.map (fun t => t.total_tokens.getD 0)).sum ∧
      g.totalLatency = (g.traces.map (fun t => t.latency_ms.getD 0)).sum ∧
      g.totalCost = (g.traces.map (fun t => t.estimated_cost_usd.getD 0)).sum ∧
      g.status = (if ∀ t ∈ g.traces, t.status = "success" then "success"
                  else if ∃ t ∈ g.traces, t.status = "error" then "error"
                  else "running")) := by
  refine ⟨?_, ?_, ?_⟩
  · show (List.filterMap _ _).length ≤ 10
    refine le_trans (List.length_filterMap_le _ _) ?_
    rw [List.length_take]
    exact min_le_left _ _
  · have hsub : ((buildRunGroups getTime fetchTraces contentList).map
        (fun g => g.runId)).Sublist
        (((((jsMapOfList (contentList.filter (fun c => jsTruthy c.run_id))).map
          (fun p => p.2)).take 10)).map (fun c => c.run_id.getD "")) := by
      refine filterMap_map_sublist _ _ _ ?_ _
      intro a b hab
      cases hft : fetchTraces (a.run_id.getD "") with
      | error e => rw [hft] at hab; simp at hab
      | ok ts =>
        rw [hft] at hab
        simp only [Option.some.injEq] at hab
        rw [← hab]
        rfl
    have hkeys : (((((jsMapOfList (contentList.filter
        (fun c => jsTruthy c.run_id))).map (fun p => p.2)).take 10)).map
        (fun c => c.run_id.getD "")).Nodup := by
      rw [List.map_take]
      refine (List.take_sublist _ _).nodup ?_
      rw [List.map_map]
      have heq : (jsMapOfList (contentList.filter (fun c => jsTruthy c.run_id))).map
          ((fun c => c.run_id.getD "") ∘ (fun p => p.2))
          = (jsMapOfList (contentList.filter (fun c => jsTruthy c.run_id))).map
            Prod.fst := by
        refine List.map_congr_left ?_
        intro p hp
        exact ((jsMapOfList_mem _ p hp).2).symm
      rw [heq]
      exact keys_nodup_jsMapOfList _
    exact hkeys.sublist hsub
  · intro g hg
    obtain ⟨c, ts, hcl, htr, hft, hgdef⟩ :=
      mem_buildRunGroups getTime fetchTraces contentList g hg
    subst hgdef
    obtain ⟨s, hs, hsne⟩ : ∃ s, c.run_id = some s ∧ s ≠ "" := by
      cases hr : c.run_id with
      | none => rw [hr] at htr; simp [jsTruthy] at htr
      | some s =>
        rw [hr] at htr
        simp only [jsTruthy] at htr
        exact ⟨s, rfl, by simpa using htr⟩
    have hkeys' : (∀ t ∈ (mkRunGroup getTime c ts).traces,
          (traceTime getTime t).isSome = true) →
        ∀ t ∈ ts, (traceTime getTime t).isSome = true := by
      intro hkeys t ht
      exact hkeys t (show t ∈ jsSort (traceLe getTime) ts from
        (jsSort_perm _ ts).mem_iff.mpr ht)
    refine ⟨⟨c, hcl, ?_, ?_⟩, ?_, ?_, ?_, ?_, ?_, ?_⟩
    · show c.run_id = some (c.run_id.getD "")
      rw [hs]
      rfl
    · show c.run_id.getD "" ≠ ""
      rw [hs]
      exact hsne
    · intro ts' hts'
      have h2 : fetchTraces (c.run_id.getD "") = Except.ok ts' := hts'
      rw [hft] at h2
      cases h2
      exact jsSort_perm _ ts
    · intro hkeys
      have hk := hkeys' hkeys
      have hpair : (jsSort (traceLe getTime) ts).Pairwise
          (fun x y => traceLe getTime x y = true) := by
        refine pairwise_jsSort (traceLe getTime) ts ?_ ?_ ts (fun x hx => hx)
        · intro x hx y hy
          obtain ⟨kx, hkx⟩ := Option.isSome_iff_exists.mp (hk x hx)
          obtain ⟨ky, hky⟩ := Option.isSome_iff_exists.mp (hk y hy)
          rcases le_total kx ky with h | h
          · exact Or.inl (by simp [traceLe, hkx, hky, h])
          · exact Or.inr (by simp [traceLe, hkx, hky, h])
        · intro x hx y hy z hz h1 h2
          obtain ⟨kx, hkx⟩ := Option.isSome_iff_exists.mp (hk x hx)
          obtain ⟨ky, hky⟩ := Option.isSome_iff_exists.mp (hk y hy)
          obtain ⟨kz, hkz⟩ := Option.isSome_iff_exists.mp (hk z hz)
          simp only [traceLe, hkx, hky, decide_eq_true_eq] at h1
          simp only [traceLe, hky, hkz, decide_eq_true_eq] at h2
          simp only [traceLe, hkx, hkz, decide_eq_true_eq]
          exact le_trans h1 h2
      refine List.Pairwise.imp_of_mem ?_ hpair
      intro a b ha hb hab
      have haT : a ∈ ts := (jsSort_perm _ ts).mem_iff.mp ha
      have hbT : b ∈ ts := (jsSort_perm _ ts).mem_iff.mp hb
      obtain ⟨ka, hka⟩ := Option.isSome_iff_exists.mp (hk a haT)
      obtain ⟨kb, hkb⟩ := Option.isSome_iff_exists.mp (hk b hbT)
      simp only [traceLe, hka, hkb, decide_eq_true_eq] at hab
      simp [hka, hkb, hab]
    · show sumBy (fun t => t.total_tokens.getD 0) ts
          = ((jsSort (traceLe getTime) ts).map (fun t => t.total_tokens.getD 0)).sum
      unfold sumBy
      rw [foldl_add_eq_sum, zero_add]
      exact (((jsSort_perm (traceLe getTime) ts).map
        (fun t => t.total_tokens.getD 0)).sum_eq).symm
    · show sumBy (fun t => t.latency_ms.getD 0) ts
          = ((jsSort (traceLe getTime) ts).map (fun t => t.latency_ms.getD 0)).sum
      unfold sumBy
      rw [foldl_add_eq_sum, zero_add]
      exact (((jsSort_perm (traceLe getTime) ts).map
        (fun t => t.latency_ms.getD 0)).sum_eq).symm
    · show sumBy (fun t => t.estimated_cost_usd.getD 0) ts
          = ((jsSort (traceLe getTime) ts).map
            (fun t => t.estimated_cost_usd.getD 0)).sum
      unfold sumBy
      rw [foldl_add_eq_sum, zero_add]
      exact (((jsSort_perm (traceLe getTime) ts).map
        (fun t => t.estimated_cost_usd.getD 0)).sum_eq).symm
    · show (if (jsSort (traceLe getTime) ts).all (fun t => t.status == "success")
            then "success"
            else if (jsSort (traceLe getTime) ts).any (fun t => t.status == "error")
            then "error" else "running")
          = (if ∀ t ∈ (jsSort (traceLe getTime) ts), t.status = "success"
             then "success"
             else if ∃ t ∈ (jsSort (traceLe getTime) ts), t.status = "error"
             then "error" else "running")
      by_cases h1 : ∀ t ∈ (jsSort (traceLe getTime) ts), t.status = "success"
      · rw [if_pos (List.all_eq_true.mpr (fun t ht => beq_iff_eq.mpr (h1 t ht))),
          if_pos h1]
      · have hb : ((jsSort (traceLe getTime) ts).all
            (fun t => t.status == "success")) = false := by
          rw [Bool.eq_false_iff]
          intro hall
          exact h1 (fun t ht => beq_iff_eq.mp (List.all_eq_true.mp hall t ht))
        rw [if_neg (by simp [hb]), if_neg h1]
        by_cases h2 : ∃ t ∈ (jsSort (traceLe getTime) ts), t.status = "error"
        · obtain ⟨t, ht, hterr⟩ := h2
          have ha : ((jsSort (traceLe getTime) ts).any
              (fun t => t.status == "error")) = true :=
            List.any_eq_true.mpr ⟨t, ht, beq_iff_eq.mpr hterr⟩
          rw [if_pos ha, if_pos ⟨t, ht, hterr⟩]
        · have hb2 : ((jsSort (traceLe getTime) ts).any
              (fun t => t.status == "error")) = false := by
            rw [Bool.eq_false_iff]
            intro hany
            obtain ⟨t, ht, hterr⟩ := List.any_eq_true.mp hany
            exact h2 ⟨t, ht, beq_iff_eq.mp hterr⟩
          rw [if_neg (by simp [hb2]), if_neg h2]

/-- Witness for C5 at a concrete site: three content rows sharing one run,
the Map keeping the last, the two traces fetched newest first and sorted
back into ascending order, the token total summed over both. -/
theorem c5_run_groups_witness :
    buildRunGroups wGetTime wFetch wContents = [wGroup] ∧
    (∀ t ∈ wGroup.traces, (traceTime wGetTime t).isSome = true) ∧
    wGroup.traces.Pairwise (fun a b =>
      (traceTime wGetTime a).getD 0 ≤ (traceTime wGetTime b).getD 0) ∧
    wGroup.traces.map (fun t => t.id) = ["tA", "tB"] ∧
    wGroup.totalTokens = 7 ∧ wGroup.status = "success" := by
  have hgroups : buildRunGroups wGetTime wFetch wContents = [wGroup] := rfl
  have hmem : wGroup ∈ buildRunGroups wGetTime wFetch wContents := by
    rw [hgroups]
    exact List.mem_singleton.mpr rfl
  have h := (c5_run_groups_spec wGetTime wFetch wContents).2.2 wGroup hmem
  refine ⟨hgroups, by decide, h.2.2.1 (by decide), by decide, by decide, by decide⟩

end Pipeline
